import Mathlib

/-!
Verification development for the SME fractional-ownership core
(`src/index.ts`): enterprises (SMEs) and nested assets, share allocation by
floor division, and per-investor ledgers.

Modelling conventions, fixed once for the whole file:

* JavaScript `number` is embedded as `ℚ` (exact rational arithmetic);
  `Math.floor` is `Int.floor`.  All concrete figures appearing in the spec
  and in the witnesses below are exactly representable, so the embedding
  agrees with the source on them.
* `StableBTreeMap` is embedded as an association table with replace-on-insert
  semantics (`Table` below).  Per the storage-collaborator interface of the
  spec (one durable logical table for the enterprises, one per-enterprise
  assets table, one per-entity investor ledger), the nested maps inside an
  `SME` record are that enterprise's own durable tables: an insert into
  `smeOpt.assets` persists into the enterprise's assets table, which the
  embedding realises by writing the updated enterprise record back.  The
  unused top-level `assetStorage` table of the source is not modelled.
* `uuidv4()` is embedded as a fresh-id counter (`State.nextId`); the id
  generator is a collaborator whose contract is to return fresh ids, and the
  core never inspects their structure.
* `throw new Error(msg)` is embedded as `Except.error` carrying the error
  taxonomy of the spec (`InvalidArgument` / `NotFound` / `CapacityExceeded`)
  together with the exact message string of the source.  Every `throw` in the
  source happens before any durable write of the same call, so an errored
  call leaves the storage unchanged; the embedding reflects this by returning
  no state on the error path.
* `console.log` is an I/O effect with no bearing on state or results and is
  not modelled.  In particular `invest_in_sme` / `invest_in_asset` have no
  `return` statement in the source (they return `undefined`); their embedding
  therefore produces only the post-state, never a purchased-share count.
-/

/-- Association table with replace-on-insert semantics: the embedding of a
`StableBTreeMap` logical table. -/
abbrev Table (K V : Type) : Type := List (K × V)

namespace Table

variable {K V : Type} [DecidableEq K]

/-- Point lookup: the value bound to `k`, if any (first binding wins). -/
def get : Table K V → K → Option V
  | [], _ => none
  | (k', v) :: t, k => if k' = k then some v else get t k

/-- Remove every binding of key `k`. -/
def erase : Table K V → K → Table K V
  | [], _ => []
  | (k', v) :: t, k => if k' = k then erase t k else (k', v) :: erase t k

/-- Insert, replacing any previous binding of `k` (map semantics of
`StableBTreeMap.insert`). -/
def insert (t : Table K V) (k : K) (v : V) : Table K V :=
  (k, v) :: erase t k

/-- The keys of a table. -/
def keys (t : Table K V) : List K := t.map Prod.fst

/-- The values of a table (`investors.values()` in spec language). -/
def values (t : Table K V) : List V := t.map Prod.snd

/-- Sum of all values of a rational-valued table: `sum(investors.values())`. -/
def sumVals (t : Table K ℚ) : ℚ := (t.map Prod.snd).sum

end Table

/-- Error taxonomy of the spec, with the message of the corresponding
`throw new Error(...)` site of the source. -/
inductive Err where
  | invalidArgument (msg : String)
  | notFound (msg : String)
  | capacityExceeded (msg : String)
deriving DecidableEq

/-- Whether a call result is an `InvalidArgument` failure. -/
def isInvalidArgument {α : Type} : Except Err α → Bool
  | .error (.invalidArgument _) => true
  | _ => false

/-- Whether a call result is a success. -/
def isOkResult {α : Type} : Except Err α → Bool
  | .ok _ => true
  | .error _ => false

/-- An Asset that can be fractionally owned within an SME (class `Asset`). -/
structure Asset where
  assetId : Nat
  name : String
  totalShares : ℚ
  sharesSold : ℚ
  valuePerShare : ℚ
  investors : Table String ℚ
  smeId : Nat
deriving DecidableEq

/-- An SME (Small Medium Enterprise) for fractional ownership (class `SME`). -/
structure SME where
  smeId : Nat
  name : String
  totalShares : ℚ
  sharesSold : ℚ
  pricePerShare : ℚ
  assets : Table Nat Asset
  investors : Table String ℚ
deriving DecidableEq

/-- The durable storage reachable from the core: the `smeStorage` table plus
the fresh-id counter standing for the uuid collaborator. -/
structure State where
  smes : Table Nat SME
  nextId : Nat
deriving DecidableEq

/-- The empty storage every operation sequence starts from. -/
def emptyState : State := { smes := [], nextId := 0 }

/-- Helper `validatePositiveNumber(value, fieldName)` of the source. -/
def validatePositiveNumber (value : ℚ) (fieldName : String) : Except Err Unit :=
  if value ≤ 0 then
    .error (.invalidArgument (fieldName ++ " must be greater than zero"))
  else
    .ok ()

/-- `create_sme(name, totalShares, pricePerShare)`: validates the two numeric
fields and the (trimmed) name, then persists a fresh SME with `sharesSold = 0`
and empty assets and investors tables, returning its id. -/
def create_sme (st : State) (name : String) (totalShares pricePerShare : ℚ) :
    Except Err (Nat × State) :=
  match validatePositiveNumber totalShares "Total shares" with
  | .error e => .error e
  | .ok _ =>
  match validatePositiveNumber pricePerShare "Price per share" with
  | .error e => .error e
  | .ok _ =>
  if name.trim.length = 0 then
    .error (.invalidArgument "SME name cannot be empty")
  else
    let smeId := st.nextId
    let newSME : SME :=
      { smeId := smeId, name := name, totalShares := totalShares,
        sharesSold := 0, pricePerShare := pricePerShare,
        assets := [], investors := [] }
    .ok (smeId, { smes := Table.insert st.smes smeId newSME,
                  nextId := st.nextId + 1 })

/-- `register_asset(smeId, name, value, totalShares)`: fails with `NotFound`
when the enterprise is missing; otherwise — with no validation of `name`,
`value` or `totalShares` — inserts a fresh asset with
`valuePerShare = value / totalShares` into the enterprise's assets table. -/
def register_asset (st : State) (smeId : Nat) (name : String)
    (value totalShares : ℚ) : Except Err (Nat × State) :=
  match Table.get st.smes smeId with
  | none => .error (.notFound ("SME with id=" ++ toString smeId ++ " not found"))
  | some smeOpt =>
    let assetId := st.nextId
    let newAsset : Asset :=
      { assetId := assetId, name := name, totalShares := totalShares,
        sharesSold := 0, valuePerShare := value / totalShares,
        investors := [], smeId := smeId }
    .ok (assetId,
      { smes := Table.insert st.smes smeId
          { smeOpt with assets := Table.insert smeOpt.assets assetId newAsset },
        nextId := st.nextId + 1 })

/-- `invest_in_sme(smeId, investorId, amount)`: resolves the SME, floors
`amount / pricePerShare`, checks capacity, then credits the investor ledger
and the `sharesSold` counter.  The source function has no `return`
statement, so the embedding returns only the post-state. -/
def invest_in_sme (st : State) (smeId : Nat) (investorId : String)
    (amount : ℚ) : Except Err State :=
  match Table.get st.smes smeId with
  | none => .error (.notFound ("SME with id=" ++ toString smeId ++ " not found"))
  | some smeOpt =>
    let sharesToPurchase : ℤ := ⌊amount / smeOpt.pricePerShare⌋
    if smeOpt.sharesSold + (sharesToPurchase : ℚ) > smeOpt.totalShares then
      .error (.capacityExceeded "Not enough shares available for purchase")
    else
      let currentShares : ℚ := (Table.get smeOpt.investors investorId).getD 0
      let smeUpd : SME :=
        { smeOpt with
          investors := Table.insert smeOpt.investors investorId
            (currentShares + (sharesToPurchase : ℚ)),
          sharesSold := smeOpt.sharesSold + (sharesToPurchase : ℚ) }
      .ok { st with smes := Table.insert st.smes smeId smeUpd }

/-- `invest_in_asset(smeId, assetId, investorId, amount)`: resolves the SME
and the asset, floors `amount / valuePerShare`, checks the asset's capacity,
credits the asset's ledger and counter, and re-persists asset and SME.  As in
the source, no purchased-share count is returned. -/
def invest_in_asset (st : State) (smeId assetId : Nat) (investorId : String)
    (amount : ℚ) : Except Err State :=
  match Table.get st.smes smeId with
  | none => .error (.notFound ("SME with id=" ++ toString smeId ++ " not found"))
  | some smeOpt =>
    match Table.get smeOpt.assets assetId with
    | none =>
      .error (.notFound ("Asset with id=" ++ toString assetId ++ " not found"))
    | some assetOpt =>
      let sharesToPurchase : ℤ := ⌊amount / assetOpt.valuePerShare⌋
      if assetOpt.sharesSold + (sharesToPurchase : ℚ) > assetOpt.totalShares then
        .error (.capacityExceeded
          "Not enough shares available for purchase in the asset")
      else
        let currentShares : ℚ :=
          (Table.get assetOpt.investors investorId).getD 0
        let assetUpd : Asset :=
          { assetOpt with
            investors := Table.insert assetOpt.investors investorId
              (currentShares + (sharesToPurchase : ℚ)),
            sharesSold := assetOpt.sharesSold + (sharesToPurchase : ℚ) }
        let smeUpd : SME :=
          { smeOpt with assets := Table.insert smeOpt.assets assetId assetUpd }
        .ok { st with smes := Table.insert st.smes smeId smeUpd }

/-- `get_sme(smeId)`: pure lookup, `null` (here `none`) on a miss. -/
def get_sme (st : State) (smeId : Nat) : Option SME :=
  Table.get st.smes smeId

/-- `get_asset(smeId, assetId)`: two-level pure lookup, `none` if either
level misses. -/
def get_asset (st : State) (smeId assetId : Nat) : Option Asset :=
  match Table.get st.smes smeId with
  | none => none
  | some smeOpt => Table.get smeOpt.assets assetId

/-- `get_investor_sme_holdings(smeId, investorId)`: 0 when the SME or the
investor is unknown. -/
def get_investor_sme_holdings (st : State) (smeId : Nat)
    (investorId : String) : ℚ :=
  match Table.get st.smes smeId with
  | none => 0
  | some sme => (Table.get sme.investors investorId).getD 0

/-- `get_investor_asset_holdings(smeId, assetId, investorId)`: 0 when the
SME, the asset or the investor is unknown. -/
def get_investor_asset_holdings (st : State) (smeId assetId : Nat)
    (investorId : String) : ℚ :=
  match Table.get st.smes smeId with
  | none => 0
  | some sme =>
    match Table.get sme.assets assetId with
    | none => 0
    | some asset => (Table.get asset.investors investorId).getD 0

/-- One call of the public operation surface, with its arguments. -/
inductive Op where
  | createSME (name : String) (totalShares pricePerShare : ℚ)
  | registerAsset (smeId : Nat) (name : String) (value totalShares : ℚ)
  | investInSME (smeId : Nat) (investorId : String) (amount : ℚ)
  | investInAsset (smeId assetId : Nat) (investorId : String) (amount : ℚ)
  | getSME (smeId : Nat)
  | getAsset (smeId assetId : Nat)
  | getInvestorSMEHoldings (smeId : Nat) (investorId : String)
  | getInvestorAssetHoldings (smeId assetId : Nat) (investorId : String)
deriving DecidableEq

/-- Validity of one operation, in the sense of the spec's preconditions: a
non-blank name and positive numeric arguments for creation and registration,
and `amount > 0` for investments.  Lookups are always valid. -/
def Op.valid : Op → Bool
  | .createSME name t p => name.trim.length != 0 && decide (0 < t) && decide (0 < p)
  | .registerAsset _ name v t => name != "" && decide (0 < v) && decide (0 < t)
  | .investInSME _ _ amount => decide (0 < amount)
  | .investInAsset _ _ _ amount => decide (0 < amount)
  | .getSME _ => true
  | .getAsset _ _ => true
  | .getInvestorSMEHoldings _ _ => true
  | .getInvestorAssetHoldings _ _ _ => true

/-- Execute one operation against the storage.  A failing call leaves the
storage unchanged (every `throw` of the source happens before its first
durable write); a lookup never changes it. -/
def runOp (st : State) : Op → State
  | .createSME name t p =>
    match create_sme st name t p with
    | .ok (_, st') => st'
    | .error _ => st
  | .registerAsset smeId name v t =>
    match register_asset st smeId name v t with
    | .ok (_, st') => st'
    | .error _ => st
  | .investInSME smeId inv amount =>
    match invest_in_sme st smeId inv amount with
    | .ok st' => st'
    | .error _ => st
  | .investInAsset smeId assetId inv amount =>
    match invest_in_asset st smeId assetId inv amount with
    | .ok st' => st'
    | .error _ => st
  | .getSME _ => st
  | .getAsset _ _ => st
  | .getInvestorSMEHoldings _ _ => st
  | .getInvestorAssetHoldings _ _ _ => st

/-- Execute a sequence of operations starting from the empty storage. -/
def runOps (ops : List Op) : State := ops.foldl runOp emptyState

/-- The per-ledger part of the data-model invariant: `0 ≤ sharesSold ≤
totalShares` and `sum(investors.values()) == sharesSold`, together with
distinctness of the ledger keys (a map never binds a key twice). -/
def LedgerOK (total sold : ℚ) (led : Table String ℚ) : Prop :=
  0 ≤ sold ∧ sold ≤ total ∧ Table.sumVals led = sold ∧ (Table.keys led).Nodup

/-- The invariant of one asset: positive derived share price and a coherent
ledger. -/
def AssetOK (a : Asset) : Prop :=
  0 < a.valuePerShare ∧ LedgerOK a.totalShares a.sharesSold a.investors

/-- The invariant of one enterprise: positive share price, coherent own
ledger, and every nested asset coherent. -/
def SMEOK (s : SME) : Prop :=
  0 < s.pricePerShare ∧ LedgerOK s.totalShares s.sharesSold s.investors ∧
  (Table.keys s.assets).Nodup ∧ ∀ a ∈ Table.values s.assets, AssetOK a

/-- The global invariant of the storage. -/
def StateOK (st : State) : Prop :=
  (Table.keys st.smes).Nodup ∧ ∀ s ∈ Table.values st.smes, SMEOK s

/-- A concrete enterprise used by witnesses: fresh "Cafe" at 10 per share. -/
def smeCafe : SME :=
  { smeId := 0, name := "Cafe", totalShares := 100, sharesSold := 0,
    pricePerShare := 10, assets := [], investors := [] }

/-- A concrete asset used by witnesses: "Oven" declared at 5000 over 100
shares, hence `valuePerShare = 50`. -/
def ovenAsset : Asset :=
  { assetId := 1, name := "Oven", totalShares := 100, sharesSold := 0,
    valuePerShare := 50, investors := [], smeId := 3 }

/-- A concrete enterprise at the capacity boundary of the spec: 95 of 100
shares sold at price 1. -/
def smeBakery : SME :=
  { smeId := 2, name := "Bakery", totalShares := 100, sharesSold := 95,
    pricePerShare := 1, assets := [], investors := [("bob", 95)] }

/-- A concrete enterprise owning `ovenAsset`. -/
def smeShop : SME :=
  { smeId := 3, name := "Shop", totalShares := 100, sharesSold := 0,
    pricePerShare := 10, assets := [(1, ovenAsset)], investors := [] }

/-- The concrete storage used by witnesses and counterexamples. -/
def stDemo : State :=
  { smes := [(0, smeCafe), (2, smeBakery), (3, smeShop)], nextId := 4 }

/-- The fresh SME record `create_sme` builds before persisting it. -/
def freshSME (id : Nat) (n : String) (t p : ℚ) : SME :=
  { smeId := id, name := n, totalShares := t, sharesSold := 0,
    pricePerShare := p, assets := [], investors := [] }

/-- The fresh Asset record `register_asset` builds before persisting it
(its `valuePerShare` is the derived quotient `v / t`). -/
def freshAsset (id : Nat) (n : String) (v t : ℚ) (parent : Nat) : Asset :=
  { assetId := id, name := n, totalShares := t, sharesSold := 0,
    valuePerShare := v / t, investors := [], smeId := parent }

/-- One accepted purchase of `stp` shares on an SME record: the ledger entry
of `inv` is rewritten to its previous value (default 0) plus `stp`, and
`sharesSold` grows by `stp`. -/
def creditSME (sme : SME) (inv : String) (stp : ℚ) : SME :=
  { sme with
    investors := Table.insert sme.investors inv
      ((Table.get sme.investors inv).getD 0 + stp),
    sharesSold := sme.sharesSold + stp }

/-- One accepted purchase of `stp` shares on an Asset record. -/
def creditAsset (a : Asset) (inv : String) (stp : ℚ) : Asset :=
  { a with
    investors := Table.insert a.investors inv
      ((Table.get a.investors inv).getD 0 + stp),
    sharesSold := a.sharesSold + stp }

/-- Write an asset back into its enterprise's assets table. -/
def setAsset (sme : SME) (assetId : Nat) (a : Asset) : SME :=
  { sme with assets := Table.insert sme.assets assetId a }

/-- Write an enterprise back into the top-level table, keeping the id
counter. -/
def setSME (st : State) (smeId : Nat) (sme : SME) : State :=
  { st with smes := Table.insert st.smes smeId sme }

/-- Persist a newly created record under a fresh id and advance the id
counter. -/
def persistNew (st : State) (smeId : Nat) (sme : SME) : State :=
  { smes := Table.insert st.smes smeId sme, nextId := st.nextId + 1 }

namespace Table

variable {K V : Type} [DecidableEq K]

theorem get_insert_self (t : Table K V) (k : K) (v : V) :
    Table.get (Table.insert t k v) k = some v := by
  simp [Table.insert, Table.get]

theorem get_erase_ne (t : Table K V) (k k' : K) (h : k' ≠ k) :
    Table.get (Table.erase t k) k' = Table.get t k' := by
  induction t with
  | nil => rfl
  | cons p t ih =>
    obtain ⟨k0, v0⟩ := p
    simp only [Table.erase, Table.get]
    by_cases h0 : k0 = k
    · subst h0
      rw [if_pos rfl, ih, if_neg fun e => h e.symm]
    · rw [if_neg h0]
      simp only [Table.get]
      by_cases h1 : k0 = k'
      · rw [if_pos h1, if_pos h1]
      · rw [if_neg h1, if_neg h1, ih]

theorem get_insert_ne (t : Table K V) (k k' : K) (v : V) (h : k' ≠ k) :
    Table.get (Table.insert t k v) k' = Table.get t k' := by
  simp only [Table.insert, Table.get]
  rw [if_neg fun e => h e.symm]
  exact get_erase_ne t k k' h

theorem erase_sublist (t : Table K V) (k : K) :
    List.Sublist (Table.erase t k) t := by
  induction t with
  | nil => simp [Table.erase]
  | cons p t ih =>
    obtain ⟨k0, v0⟩ := p
    simp only [Table.erase]
    by_cases h0 : k0 = k
    · rw [if_pos h0]
      exact ih.cons _
    · rw [if_neg h0]
      exact ih.cons₂ _

theorem not_mem_keys_erase (t : Table K V) (k : K) :
    k ∉ Table.keys (Table.erase t k) := by
  induction t with
  | nil => simp [Table.erase, Table.keys]
  | cons p t ih =>
    obtain ⟨k0, v0⟩ := p
    simp only [Table.erase]
    by_cases h0 : k0 = k
    · rw [if_pos h0]
      exact ih
    · rw [if_neg h0]
      simp only [Table.keys, List.map_cons, List.mem_cons]
      push_neg
      exact ⟨fun e => h0 e.symm, ih⟩

theorem nodup_keys_erase (t : Table K V) (k : K)
    (h : (Table.keys t).Nodup) : (Table.keys (Table.erase t k)).Nodup :=
  List.Nodup.sublist ((erase_sublist t k).map Prod.fst) h

theorem nodup_keys_insert (t : Table K V) (k : K) (v : V)
    (h : (Table.keys t).Nodup) : (Table.keys (Table.insert t k v)).Nodup := by
  simp only [Table.insert, Table.keys, List.map_cons, List.nodup_cons]
  exact ⟨not_mem_keys_erase t k, nodup_keys_erase t k h⟩

theorem erase_of_get_none (t : Table K V) (k : K)
    (h : Table.get t k = none) : Table.erase t k = t := by
  induction t with
  | nil => rfl
  | cons p t ih =>
    obtain ⟨k0, v0⟩ := p
    simp only [Table.get] at h
    by_cases h0 : k0 = k
    · rw [if_pos h0] at h
      exact absurd h (by simp)
    · rw [if_neg h0] at h
      simp only [Table.erase]
      rw [if_neg h0, ih h]

theorem get_eq_none_of_not_mem_keys (t : Table K V) (k : K)
    (h : k ∉ Table.keys t) : Table.get t k = none := by
  induction t with
  | nil => rfl
  | cons p t ih =>
    obtain ⟨k0, v0⟩ := p
    simp only [Table.keys, List.map_cons, List.mem_cons, not_or] at h
    simp only [Table.get]
    rw [if_neg fun e => h.1 e.symm]
    exact ih h.2

theorem sumVals_insert (t : Table K ℚ) (k : K) (v : ℚ) :
    Table.sumVals (Table.insert t k v) = v + Table.sumVals (Table.erase t k) := by
  simp [Table.insert, Table.sumVals]

theorem sumVals_erase_of_get_some (t : Table K ℚ) (k : K) (w : ℚ) :
    (Table.keys t).Nodup → Table.get t k = some w →
    Table.sumVals t = w + Table.sumVals (Table.erase t k) := by
  induction t with
  | nil => intro _ h; exact absurd h (by simp [Table.get])
  | cons p t ih =>
    intro hnd h
    obtain ⟨k0, v0⟩ := p
    simp only [Table.keys, List.map_cons, List.nodup_cons] at hnd
    simp only [Table.get] at h
    by_cases h0 : k0 = k
    · rw [if_pos h0] at h
      have hv : v0 = w := Option.some.inj h
      subst h0
      have hget : Table.get t k0 = none :=
        get_eq_none_of_not_mem_keys t k0 hnd.1
      simp only [Table.erase]
      rw [if_pos trivial, erase_of_get_none t k0 hget]
      simp [Table.sumVals, hv]
    · rw [if_neg h0] at h
      have hrec := ih hnd.2 h
      simp only [Table.erase]
      rw [if_neg h0]
      simp only [Table.sumVals, List.map_cons, List.sum_cons] at hrec ⊢
      rw [hrec]
      ring

theorem mem_values_of_get_some {t : Table K V} {k : K} {v : V} :
    Table.get t k = some v → v ∈ Table.values t := by
  induction t with
  | nil => intro h; exact absurd h (by simp [Table.get])
  | cons p t ih =>
    intro h
    obtain ⟨k0, v0⟩ := p
    simp only [Table.get] at h
    simp only [Table.values, List.map_cons, List.mem_cons]
    by_cases h0 : k0 = k
    · rw [if_pos h0] at h
      exact Or.inl (Option.some.inj h).symm
    · rw [if_neg h0] at h
      exact Or.inr (ih h)

theorem mem_values_insert {t : Table K V} {k : K} {v w : V} :
    w ∈ Table.values (Table.insert t k v) → w = v ∨ w ∈ Table.values t := by
  intro h
  simp only [Table.insert, Table.values, List.map_cons, List.mem_cons] at h
  rcases h with h | h
  · exact Or.inl h
  · exact Or.inr (((erase_sublist t k).map Prod.snd).subset h)

end Table


theorem floorCast_nonneg {a p : ℚ} (ha : 0 < a) (hp : 0 < p) :
    (0 : ℚ) ≤ ((⌊a / p⌋ : ℤ) : ℚ) := by
  have hq : (0 : ℚ) ≤ a / p := le_of_lt (div_pos ha hp)
  exact_mod_cast Int.floor_nonneg.mpr hq

theorem floor_div_eq_zero_of_lt {a p : ℚ} (h0 : 0 < a) (hlt : a < p) :
    ⌊a / p⌋ = 0 := by
  have hp : 0 < p := lt_trans h0 hlt
  rw [Int.floor_eq_zero_iff]
  exact Set.mem_Ico.mpr ⟨le_of_lt (div_pos h0 hp), (div_lt_one hp).mpr hlt⟩

theorem create_sme_ok (st : State) {n : String} {t p : ℚ}
    (hn : ¬ n.trim.length = 0) (ht : 0 < t) (hp : 0 < p) :
    create_sme st n t p =
      .ok (st.nextId, persistNew st st.nextId (freshSME st.nextId n t p)) := by
  unfold create_sme validatePositiveNumber
  rw [if_neg (not_le.mpr ht), if_neg (not_le.mpr hp), if_neg hn]
  rfl

theorem register_asset_none (st : State) (smeId : Nat) (n : String) (v t : ℚ)
    (hget : Table.get st.smes smeId = none) :
    register_asset st smeId n v t =
      .error (.notFound ("SME with id=" ++ toString smeId ++ " not found")) := by
  unfold register_asset
  rw [hget]

theorem register_asset_ok (st : State) (smeId : Nat) (n : String) (v t : ℚ)
    {sme : SME} (hget : Table.get st.smes smeId = some sme) :
    register_asset st smeId n v t = .ok (st.nextId,
      persistNew st smeId
        (setAsset sme st.nextId (freshAsset st.nextId n v t smeId))) := by
  unfold register_asset
  rw [hget]
  rfl

theorem invest_in_sme_notFound (st : State) (smeId : Nat) (inv : String)
    (amount : ℚ) (hget : Table.get st.smes smeId = none) :
    invest_in_sme st smeId inv amount =
      .error (.notFound ("SME with id=" ++ toString smeId ++ " not found")) := by
  unfold invest_in_sme
  rw [hget]

theorem invest_in_sme_capacity (st : State) (smeId : Nat) (inv : String)
    (amount : ℚ) {sme : SME} (hget : Table.get st.smes smeId = some sme)
    (hcap : sme.sharesSold + ((⌊amount / sme.pricePerShare⌋ : ℤ) : ℚ) >
      sme.totalShares) :
    invest_in_sme st smeId inv amount =
      .error (.capacityExceeded "Not enough shares available for purchase") := by
  unfold invest_in_sme
  simp only [hget]
  rw [if_pos hcap]

theorem invest_in_sme_ok (st : State) (smeId : Nat) (inv : String)
    (amount : ℚ) {sme : SME} (hget : Table.get st.smes smeId = some sme)
    (hcap : ¬ sme.sharesSold + ((⌊amount / sme.pricePerShare⌋ : ℤ) : ℚ) >
      sme.totalShares) :
    invest_in_sme st smeId inv amount =
      .ok (setSME st smeId
        (creditSME sme inv ((⌊amount / sme.pricePerShare⌋ : ℤ) : ℚ))) := by
  unfold invest_in_sme
  simp only [hget]
  rw [if_neg hcap]
  rfl

theorem invest_in_sme_ok_inv {st : State} {smeId : Nat} {inv : String}
    {amount : ℚ} {st' : State}
    (h : invest_in_sme st smeId inv amount = .ok st') :
    ∃ sme, Table.get st.smes smeId = some sme ∧
      ¬ sme.sharesSold + ((⌊amount / sme.pricePerShare⌋ : ℤ) : ℚ) >
        sme.totalShares ∧
      st' = setSME st smeId
        (creditSME sme inv ((⌊amount / sme.pricePerShare⌋ : ℤ) : ℚ)) := by
  cases hget : Table.get st.smes smeId with
  | none =>
    rw [invest_in_sme_notFound st smeId inv amount hget] at h
    exact absurd h (by simp)
  | some sme =>
    by_cases hcap : sme.sharesSold +
        ((⌊amount / sme.pricePerShare⌋ : ℤ) : ℚ) > sme.totalShares
    · rw [invest_in_sme_capacity st smeId inv amount hget hcap] at h
      exact absurd h (by simp)
    · rw [invest_in_sme_ok st smeId inv amount hget hcap] at h
      exact ⟨sme, rfl, hcap, (Except.ok.inj h).symm⟩

theorem invest_in_asset_notFound_sme (st : State) (smeId assetId : Nat)
    (inv : String) (amount : ℚ) (hget : Table.get st.smes smeId = none) :
    invest_in_asset st smeId assetId inv amount =
      .error (.notFound ("SME with id=" ++ toString smeId ++ " not found")) := by
  unfold invest_in_asset
  rw [hget]

theorem invest_in_asset_notFound_asset (st : State) (smeId assetId : Nat)
    (inv : String) (amount : ℚ) {sme : SME}
    (hget : Table.get st.smes smeId = some sme)
    (hga : Table.get sme.assets assetId = none) :
    invest_in_asset st smeId assetId inv amount =
      .error (.notFound ("Asset with id=" ++ toString assetId ++ " not found")) := by
  unfold invest_in_asset
  simp only [hget]
  rw [hga]

theorem invest_in_asset_capacity (st : State) (smeId assetId : Nat)
    (inv : String) (amount : ℚ) {sme : SME} {a : Asset}
    (hget : Table.get st.smes smeId = some sme)
    (hga : Table.get sme.assets assetId = some a)
    (hcap : a.sharesSold + ((⌊amount / a.valuePerShare⌋ : ℤ) : ℚ) >
      a.totalShares) :
    invest_in_asset st smeId assetId inv amount =
      .error (.capacityExceeded
        "Not enough shares available for purchase in the asset") := by
  unfold invest_in_asset
  simp only [hget, hga]
  rw [if_pos hcap]

theorem invest_in_asset_ok (st : State) (smeId assetId : Nat) (inv : String)
    (amount : ℚ) {sme : SME} {a : Asset}
    (hget : Table.get st.smes smeId = some sme)
    (hga : Table.get sme.assets assetId = some a)
    (hcap : ¬ a.sharesSold + ((⌊amount / a.valuePerShare⌋ : ℤ) : ℚ) >
      a.totalShares) :
    invest_in_asset st smeId assetId inv amount =
      .ok (setSME st smeId (setAsset sme assetId
        (creditAsset a inv ((⌊amount / a.valuePerShare⌋ : ℤ) : ℚ)))) := by
  unfold invest_in_asset
  simp only [hget, hga]
  rw [if_neg hcap]
  rfl

theorem invest_in_asset_ok_inv {st : State} {smeId assetId : Nat}
    {inv : String} {amount : ℚ} {st' : State}
    (h : invest_in_asset st smeId assetId inv amount = .ok st') :
    ∃ sme a, Table.get st.smes smeId = some sme ∧
      Table.get sme.assets assetId = some a ∧
      ¬ a.sharesSold + ((⌊amount / a.valuePerShare⌋ : ℤ) : ℚ) > a.totalShares ∧
      st' = setSME st smeId (setAsset sme assetId
        (creditAsset a inv ((⌊amount / a.valuePerShare⌋ : ℤ) : ℚ))) := by
  cases hget : Table.get st.smes smeId with
  | none =>
    rw [invest_in_asset_notFound_sme st smeId assetId inv amount hget] at h
    exact absurd h (by simp)
  | some sme =>
    cases hga : Table.get sme.assets assetId with
    | none =>
      rw [invest_in_asset_notFound_asset st smeId assetId inv amount hget hga] at h
      exact absurd h (by simp)
    | some a =>
      by_cases hcap : a.sharesSold +
          ((⌊amount / a.valuePerShare⌋ : ℤ) : ℚ) > a.totalShares
      · rw [invest_in_asset_capacity st smeId assetId inv amount hget hga hcap] at h
        exact absurd h (by simp)
      · rw [invest_in_asset_ok st smeId assetId inv amount hget hga hcap] at h
        exact ⟨sme, a, rfl, hga, hcap, (Except.ok.inj h).symm⟩

theorem LedgerOK_credit {total sold : ℚ} {led : Table String ℚ} {inv : String}
    {stp : ℚ} (h : LedgerOK total sold led) (hstp : 0 ≤ stp)
    (hcap : sold + stp ≤ total) :
    LedgerOK total (sold + stp)
      (Table.insert led inv ((Table.get led inv).getD 0 + stp)) := by
  obtain ⟨h0, h1, hsum, hnd⟩ := h
  refine ⟨add_nonneg h0 hstp, hcap, ?_, Table.nodup_keys_insert led inv _ hnd⟩
  rw [Table.sumVals_insert]
  cases hg : Table.get led inv with
  | none =>
    rw [Table.erase_of_get_none led inv hg]
    simp only [Option.getD_none, zero_add, hsum]
    linarith
  | some w =>
    have hdec := Table.sumVals_erase_of_get_some led inv w hnd hg
    simp only [Option.getD_some]
    linarith

theorem SMEOK_credit {sme : SME} {inv : String} {stp : ℚ} (h : SMEOK sme)
    (hstp : 0 ≤ stp) (hcap : sme.sharesSold + stp ≤ sme.totalShares) :
    SMEOK (creditSME sme inv stp) := by
  obtain ⟨hp, hl, hnd, hall⟩ := h
  exact ⟨hp, LedgerOK_credit hl hstp hcap, hnd, hall⟩

theorem AssetOK_credit {a : Asset} {inv : String} {stp : ℚ} (h : AssetOK a)
    (hstp : 0 ≤ stp) (hcap : a.sharesSold + stp ≤ a.totalShares) :
    AssetOK (creditAsset a inv stp) := by
  obtain ⟨hv, hl⟩ := h
  exact ⟨hv, LedgerOK_credit hl hstp hcap⟩

theorem SMEOK_setAsset {sme : SME} {aid : Nat} {a : Asset}
    (h : SMEOK sme) (ha : AssetOK a) : SMEOK (setAsset sme aid a) := by
  obtain ⟨hp, hl, hnd, hall⟩ := h
  refine ⟨hp, hl, Table.nodup_keys_insert _ _ _ hnd, ?_⟩
  intro x hx
  rcases Table.mem_values_insert hx with rfl | hx'
  · exact ha
  · exact hall x hx'

theorem StateOK_set {st : State} {id : Nat} {sme : SME}
    (h : StateOK st) (hs : SMEOK sme) : StateOK (setSME st id sme) := by
  obtain ⟨hnd, hall⟩ := h
  refine ⟨Table.nodup_keys_insert _ _ _ hnd, ?_⟩
  intro x hx
  rcases Table.mem_values_insert hx with rfl | hx'
  · exact hs
  · exact hall x hx'

theorem StateOK_persistNew {st : State} {id : Nat} {sme : SME}
    (h : StateOK st) (hs : SMEOK sme) : StateOK (persistNew st id sme) := by
  obtain ⟨hnd, hall⟩ := h
  refine ⟨Table.nodup_keys_insert _ _ _ hnd, ?_⟩
  intro x hx
  rcases Table.mem_values_insert hx with rfl | hx'
  · exact hs
  · exact hall x hx'

theorem SMEOK_fresh {id : Nat} {n : String} {t p : ℚ} (ht : 0 < t)
    (hp : 0 < p) : SMEOK (freshSME id n t p) := by
  refine ⟨hp, ⟨le_refl 0, le_of_lt ht, rfl, List.nodup_nil⟩,
    List.nodup_nil, ?_⟩
  intro a ha
  simp [Table.values, freshSME] at ha

theorem AssetOK_fresh {id : Nat} {n : String} {v t : ℚ} {parent : Nat}
    (hv : 0 < v) (ht : 0 < t) : AssetOK (freshAsset id n v t parent) :=
  ⟨div_pos hv ht, le_refl 0, le_of_lt ht, rfl, List.nodup_nil⟩

theorem emptyState_OK : StateOK emptyState := by
  refine ⟨List.nodup_nil, ?_⟩
  intro s hs
  simp [Table.values, emptyState] at hs

theorem runOp_preserves {st : State} {op : Op}
    (h : StateOK st) (hv : op.valid = true) : StateOK (runOp st op) := by
  cases op with
  | createSME n t p =>
    simp only [Op.valid, Bool.and_eq_true, bne_iff_ne, ne_eq,
      decide_eq_true_eq] at hv
    obtain ⟨⟨hn, ht⟩, hp⟩ := hv
    simp only [runOp]
    rw [create_sme_ok st hn ht hp]
    exact StateOK_persistNew h (SMEOK_fresh ht hp)
  | registerAsset smeId n v t =>
    simp only [Op.valid, Bool.and_eq_true, bne_iff_ne, ne_eq,
      decide_eq_true_eq] at hv
    obtain ⟨⟨hn, hvv⟩, ht⟩ := hv
    simp only [runOp]
    cases hget : Table.get st.smes smeId with
    | none =>
      rw [register_asset_none st smeId n v t hget]
      exact h
    | some sme =>
      rw [register_asset_ok st smeId n v t hget]
      have hsme : SMEOK sme := h.2 sme (Table.mem_values_of_get_some hget)
      exact StateOK_persistNew h (SMEOK_setAsset hsme (AssetOK_fresh hvv ht))
  | investInSME smeId inv amount =>
    simp only [Op.valid, decide_eq_true_eq] at hv
    simp only [runOp]
    cases hget : Table.get st.smes smeId with
    | none =>
      rw [invest_in_sme_notFound st smeId inv amount hget]
      exact h
    | some sme =>
      have hsme : SMEOK sme := h.2 sme (Table.mem_values_of_get_some hget)
      by_cases hcap : sme.sharesSold +
          ((⌊amount / sme.pricePerShare⌋ : ℤ) : ℚ) > sme.totalShares
      · rw [invest_in_sme_capacity st smeId inv amount hget hcap]
        exact h
      · rw [invest_in_sme_ok st smeId inv amount hget hcap]
        exact StateOK_set h
          (SMEOK_credit hsme (floorCast_nonneg hv hsme.1) (not_lt.mp hcap))
  | investInAsset smeId assetId inv amount =>
    simp only [Op.valid, decide_eq_true_eq] at hv
    simp only [runOp]
    cases hget : Table.get st.smes smeId with
    | none =>
      rw [invest_in_asset_notFound_sme st smeId assetId inv amount hget]
      exact h
    | some sme =>
      have hsme : SMEOK sme := h.2 sme (Table.mem_values_of_get_some hget)
      cases hga : Table.get sme.assets assetId with
      | none =>
        rw [invest_in_asset_notFound_asset st smeId assetId inv amount hget hga]
        exact h
      | some a =>
        have ha : AssetOK a := hsme.2.2.2 a (Table.mem_values_of_get_some hga)
        by_cases hcap : a.sharesSold +
            ((⌊amount / a.valuePerShare⌋ : ℤ) : ℚ) > a.totalShares
        · rw [invest_in_asset_capacity st smeId assetId inv amount hget hga hcap]
          exact h
        · rw [invest_in_asset_ok st smeId assetId inv amount hget hga hcap]
          exact StateOK_set h (SMEOK_setAsset hsme
            (AssetOK_credit ha (floorCast_nonneg hv ha.1) (not_lt.mp hcap)))
  | getSME id => exact h
  | getAsset id aid => exact h
  | getInvestorSMEHoldings id inv => exact h
  | getInvestorAssetHoldings id aid inv => exact h

theorem runOps_preserves (ops : List Op) :
    ∀ st, StateOK st → (∀ op ∈ ops, op.valid = true) →
      StateOK (ops.foldl runOp st) := by
  induction ops with
  | nil =>
    intro st h _
    exact h
  | cons op ops ih =>
    intro st h hv
    simp only [List.foldl_cons]
    exact ih _ (runOp_preserves h (hv op (by simp)))
      fun o ho => hv o (by simp [ho])

/-- Claim C1: for any sequence of valid operations (createEnterprise,
registerAsset, investInEnterprise, investInAsset, lookups) starting from the
empty storage, every enterprise and every asset satisfies
`0 ≤ sharesSold ≤ totalShares`, and the sum of its investor-ledger values
equals its `sharesSold`. -/
theorem sme_asset_invariants_hold (ops : List Op)
    (hv : ∀ op ∈ ops, op.valid = true) :
    ∀ sme ∈ Table.values (runOps ops).smes,
      (0 ≤ sme.sharesSold ∧ sme.sharesSold ≤ sme.totalShares ∧
        Table.sumVals sme.investors = sme.sharesSold) ∧
      ∀ a ∈ Table.values sme.assets,
        0 ≤ a.sharesSold ∧ a.sharesSold ≤ a.totalShares ∧
        Table.sumVals a.investors = a.sharesSold := by
  have h := runOps_preserves ops emptyState emptyState_OK hv
  intro sme hmem
  have hs := h.2 sme hmem
  refine ⟨⟨hs.2.1.1, hs.2.1.2.1, hs.2.1.2.2.1⟩, ?_⟩
  intro a ha
  have haOK := hs.2.2.2 a ha
  exact ⟨haOK.2.1, haOK.2.2.1, haOK.2.2.2.1⟩

/-- Witness for C1: a concrete valid sequence — create an enterprise,
register an asset under it, invest in the enterprise, invest in the asset —
with the invariant evaluated on the resulting storage. -/
theorem sme_asset_invariants_hold_witness :
    (∀ op ∈ [Op.createSME "Cafe" 100 10,
             Op.registerAsset 0 "Oven" 5000 100,
             Op.investInSME 0 "inv1" 105,
             Op.investInAsset 0 1 "inv1" 125], op.valid = true) ∧
    (∀ sme ∈ Table.values (runOps [Op.createSME "Cafe" 100 10,
             Op.registerAsset 0 "Oven" 5000 100,
             Op.investInSME 0 "inv1" 105,
             Op.investInAsset 0 1 "inv1" 125]).smes,
      (0 ≤ sme.sharesSold ∧ sme.sharesSold ≤ sme.totalShares ∧
        Table.sumVals sme.investors = sme.sharesSold) ∧
      ∀ a ∈ Table.values sme.assets,
        0 ≤ a.sharesSold ∧ a.sharesSold ≤ a.totalShares ∧
        Table.sumVals a.investors = a.sharesSold) :=
  ⟨by with_unfolding_all decide,
   sme_asset_invariants_hold _ (by with_unfolding_all decide)⟩

/-- Counterexample to claim C2 as stated: `amount = 0` satisfies
`amount ≤ 0`, the target enterprise exists, and yet `invest_in_sme` succeeds
instead of failing with `InvalidArgument`. -/
theorem invest_zero_amount_not_rejected :
    isOkResult (invest_in_sme stDemo 0 "inv1" 0) = true := by
  with_unfolding_all rfl

/-- Claim C2 (amended): `invest_in_sme` and `invest_in_asset` perform no
amount validation and never fail with `InvalidArgument`; in particular a call
with `amount = 0` on an existing enterprise whose counters satisfy
`sharesSold ≤ totalShares` succeeds, purchasing 0 shares (the division
`0 / pricePerShare` floors to 0). -/
theorem invest_no_amount_validation :
    (∀ st smeId inv amount,
      isInvalidArgument (invest_in_sme st smeId inv amount) = false) ∧
    (∀ st smeId assetId inv amount,
      isInvalidArgument (invest_in_asset st smeId assetId inv amount) = false) ∧
    (∀ st smeId inv sme, Table.get st.smes smeId = some sme →
      sme.sharesSold ≤ sme.totalShares →
      invest_in_sme st smeId inv 0 =
        .ok (setSME st smeId (creditSME sme inv 0))) := by
  refine ⟨?_, ?_, ?_⟩
  · intro st smeId inv amount
    cases hget : Table.get st.smes smeId with
    | none =>
      rw [invest_in_sme_notFound st smeId inv amount hget]
      rfl
    | some sme =>
      by_cases hcap : sme.sharesSold +
          ((⌊amount / sme.pricePerShare⌋ : ℤ) : ℚ) > sme.totalShares
      · rw [invest_in_sme_capacity st smeId inv amount hget hcap]
        rfl
      · rw [invest_in_sme_ok st smeId inv amount hget hcap]
        rfl
  · intro st smeId assetId inv amount
    cases hget : Table.get st.smes smeId with
    | none =>
      rw [invest_in_asset_notFound_sme st smeId assetId inv amount hget]
      rfl
    | some sme =>
      cases hga : Table.get sme.assets assetId with
      | none =>
        rw [invest_in_asset_notFound_asset st smeId assetId inv amount hget hga]
        rfl
      | some a =>
        by_cases hcap : a.sharesSold +
            ((⌊amount / a.valuePerShare⌋ : ℤ) : ℚ) > a.totalShares
        · rw [invest_in_asset_capacity st smeId assetId inv amount hget hga hcap]
          rfl
        · rw [invest_in_asset_ok st smeId assetId inv amount hget hga hcap]
          rfl
  · intro st smeId inv sme hget hse
    have hz : ((⌊(0 : ℚ) / sme.pricePerShare⌋ : ℤ) : ℚ) = 0 := by
      rw [zero_div, Int.floor_zero]
      exact Int.cast_zero
    have hcap : ¬ sme.sharesSold +
        ((⌊(0 : ℚ) / sme.pricePerShare⌋ : ℤ) : ℚ) > sme.totalShares := by
      rw [hz, add_zero]
      exact not_lt.mpr hse
    rw [invest_in_sme_ok st smeId inv 0 hget hcap, hz]

/-- Witness for C2 (amended) at `stDemo`: the zero-amount call on the Cafe
enterprise succeeds, writing back the ledger unchanged. -/
theorem invest_no_amount_validation_witness :
    Table.get stDemo.smes 0 = some smeCafe ∧
    smeCafe.sharesSold ≤ smeCafe.totalShares ∧
    invest_in_sme stDemo 0 "inv1" 0 =
      .ok (setSME stDemo 0 (creditSME smeCafe "inv1" 0)) :=
  ⟨by with_unfolding_all rfl, by with_unfolding_all decide,
   invest_no_amount_validation.2.2 stDemo 0 "inv1" smeCafe
     (by with_unfolding_all rfl) (by with_unfolding_all decide)⟩

/-- Counterexample to claim C3 as stated: on an existing enterprise,
`register_asset` with an empty name and negative declared value and total
shares succeeds — no `InvalidArgument` validation exists in the source. -/
theorem register_asset_accepts_invalid_input :
    isOkResult (register_asset stDemo 0 "" (-5) (-10)) = true := by
  with_unfolding_all rfl

/-- Claim C3 (amended): `register_asset` fails with `NotFound` exactly when
the enterprise id does not resolve (and then creates nothing — the error
path performs no write); on an existing enterprise it always succeeds,
performing no validation of `name`, `declaredValue` or `totalShares`. -/
theorem register_asset_behavior :
    ∀ st smeId n v t,
      (Table.get st.smes smeId = none →
        register_asset st smeId n v t =
          .error (.notFound ("SME with id=" ++ toString smeId ++ " not found"))) ∧
      (∀ sme, Table.get st.smes smeId = some sme →
        register_asset st smeId n v t = .ok (st.nextId,
          persistNew st smeId
            (setAsset sme st.nextId (freshAsset st.nextId n v t smeId)))) :=
  fun st smeId n v t =>
    ⟨register_asset_none st smeId n v t,
     fun _ hget => register_asset_ok st smeId n v t hget⟩

/-- Witness for C3 (amended): a missing enterprise id yields `NotFound`, and
a call with empty name and negative numbers on the existing Cafe enterprise
succeeds. -/
theorem register_asset_behavior_witness :
    Table.get stDemo.smes 1 = none ∧
    register_asset stDemo 1 "Oven" 5000 100 =
      .error (.notFound ("SME with id=" ++ toString (1 : Nat) ++ " not found")) ∧
    Table.get stDemo.smes 0 = some smeCafe ∧
    register_asset stDemo 0 "" (-5) (-10) = .ok (stDemo.nextId,
      persistNew stDemo 0
        (setAsset smeCafe stDemo.nextId
          (freshAsset stDemo.nextId "" (-5) (-10) 0))) :=
  ⟨by with_unfolding_all rfl,
   (register_asset_behavior stDemo 1 "Oven" 5000 100).1
     (by with_unfolding_all rfl),
   by with_unfolding_all rfl,
   (register_asset_behavior stDemo 0 "" (-5) (-10)).2 smeCafe
     (by with_unfolding_all rfl)⟩

/-- Claim C4, evaluated at the failing input: a successful
`invest_in_sme(cafe, "inv1", 105)` returns no purchased-share count — the
source function has no `return` statement, so the call's only outcome is the
updated storage (10 shares credited), and the count 10 appears in no
returned value. -/
theorem invest_returns_no_share_count :
    invest_in_sme stDemo 0 "inv1" 105 =
      .ok (setSME stDemo 0 (creditSME smeCafe "inv1" 10)) := by
  with_unfolding_all rfl

/-- Claim C5: on every successful investment, the allocated shares are
exactly `floor(amount / unitPrice)` — `pricePerShare` for an enterprise,
`valuePerShare` for an asset — and the post-state is exactly the credit of
that many shares, so the fractional remainder of `amount` is credited
nowhere. -/
theorem invest_allocates_floor_shares :
    (∀ st smeId inv amount sme st',
      Table.get st.smes smeId = some sme →
      invest_in_sme st smeId inv amount = .ok st' →
      st' = setSME st smeId
        (creditSME sme inv ((⌊amount / sme.pricePerShare⌋ : ℤ) : ℚ))) ∧
    (∀ st smeId assetId inv amount sme a st',
      Table.get st.smes smeId = some sme →
      Table.get sme.assets assetId = some a →
      invest_in_asset st smeId assetId inv amount = .ok st' →
      st' = setSME st smeId (setAsset sme assetId
        (creditAsset a inv ((⌊amount / a.valuePerShare⌋ : ℤ) : ℚ)))) := by
  constructor
  · intro st smeId inv amount sme st' hget h
    obtain ⟨sme0, hget0, _, hst⟩ := invest_in_sme_ok_inv h
    obtain rfl : sme0 = sme := Option.some.inj (hget0.symm.trans hget)
    exact hst
  · intro st smeId assetId inv amount sme a st' hget hga h
    obtain ⟨sme0, a0, hget0, hga0, _, hst⟩ := invest_in_asset_ok_inv h
    obtain rfl : sme0 = sme := Option.some.inj (hget0.symm.trans hget)
    obtain rfl : a0 = a := Option.some.inj (hga0.symm.trans hga)
    exact hst

/-- Witness for C5: the spec's own figures — price 10, amount 105 — yield
exactly 10 shares (not 10.5), on the concrete `stDemo`. -/
theorem invest_allocates_floor_shares_witness :
    Table.get stDemo.smes 0 = some smeCafe ∧
    invest_in_sme stDemo 0 "inv1" 105 =
      .ok (setSME stDemo 0 (creditSME smeCafe "inv1" 10)) ∧
    setSME stDemo 0 (creditSME smeCafe "inv1" 10) =
      setSME stDemo 0 (creditSME smeCafe "inv1"
        ((⌊(105 : ℚ) / smeCafe.pricePerShare⌋ : ℤ) : ℚ)) :=
  ⟨by with_unfolding_all rfl, by with_unfolding_all rfl,
   invest_allocates_floor_shares.1 stDemo 0 "inv1" 105 smeCafe _
     (by with_unfolding_all rfl) (by with_unfolding_all rfl)⟩

/-- Claim C6: given that the target entity resolves, an investment is
rejected with `CapacityExceeded` if and only if
`sharesSold + sharesToPurchase > totalShares`, and it succeeds if and only
if the purchase fits; on the error path no write has happened, so the
entity is left unchanged (no partial fill). -/
theorem capacity_check_iff :
    (∀ st smeId inv amount sme, Table.get st.smes smeId = some sme →
      ((invest_in_sme st smeId inv amount =
          .error (.capacityExceeded "Not enough shares available for purchase")) ↔
        sme.sharesSold + ((⌊amount / sme.pricePerShare⌋ : ℤ) : ℚ) >
          sme.totalShares) ∧
      (isOkResult (invest_in_sme st smeId inv amount) = true ↔
        sme.sharesSold + ((⌊amount / sme.pricePerShare⌋ : ℤ) : ℚ) ≤
          sme.totalShares)) ∧
    (∀ st smeId assetId inv amount sme a,
      Table.get st.smes smeId = some sme →
      Table.get sme.assets assetId = some a →
      ((invest_in_asset st smeId assetId inv amount =
          .error (.capacityExceeded
            "Not enough shares available for purchase in the asset")) ↔
        a.sharesSold + ((⌊amount / a.valuePerShare⌋ : ℤ) : ℚ) >
          a.totalShares) ∧
      (isOkResult (invest_in_asset st smeId assetId inv amount) = true ↔
        a.sharesSold + ((⌊amount / a.valuePerShare⌋ : ℤ) : ℚ) ≤
          a.totalShares)) := by
  constructor
  · intro st smeId inv amount sme hget
    by_cases hcap : sme.sharesSold +
        ((⌊amount / sme.pricePerShare⌋ : ℤ) : ℚ) > sme.totalShares
    · rw [invest_in_sme_capacity st smeId inv amount hget hcap]
      exact ⟨iff_of_true rfl hcap,
        iff_of_false (by simp [isOkResult]) (not_le.mpr hcap)⟩
    · rw [invest_in_sme_ok st smeId inv amount hget hcap]
      exact ⟨iff_of_false (by simp) hcap,
        iff_of_true (by simp [isOkResult]) (not_lt.mp hcap)⟩
  · intro st smeId assetId inv amount sme a hget hga
    by_cases hcap : a.sharesSold +
        ((⌊amount / a.valuePerShare⌋ : ℤ) : ℚ) > a.totalShares
    · rw [invest_in_asset_capacity st smeId assetId inv amount hget hga hcap]
      exact ⟨iff_of_true rfl hcap,
        iff_of_false (by simp [isOkResult]) (not_le.mpr hcap)⟩
    · rw [invest_in_asset_ok st smeId assetId inv amount hget hga hcap]
      exact ⟨iff_of_false (by simp) hcap,
        iff_of_true (by simp [isOkResult]) (not_lt.mp hcap)⟩

/-- Witness for C6 at the spec's boundary: the Bakery enterprise has
`totalShares = 100`, `sharesSold = 95`, `pricePerShare = 1`; an investment
of 5 succeeds (exactly reaching 100) and an investment of 6 is rejected with
`CapacityExceeded` (and, the error path writing nothing, `sharesSold` stays
at 95). -/
theorem capacity_check_iff_witness :
    Table.get stDemo.smes 2 = some smeBakery ∧
    isOkResult (invest_in_sme stDemo 2 "inv1" 5) = true ∧
    invest_in_sme stDemo 2 "inv1" 6 =
      .error (.capacityExceeded "Not enough shares available for purchase") :=
  ⟨by with_unfolding_all rfl,
   ((capacity_check_iff.1 stDemo 2 "inv1" 5 smeBakery
       (by with_unfolding_all rfl)).2).mpr (by with_unfolding_all decide),
   ((capacity_check_iff.1 stDemo 2 "inv1" 6 smeBakery
       (by with_unfolding_all rfl)).1).mpr (by with_unfolding_all decide)⟩

/-- Claim C7: `create_sme` fails with `InvalidArgument` exactly when the
name is empty or blank, `totalShares ≤ 0`, or `pricePerShare ≤ 0`; otherwise
it persists a fresh enterprise with `sharesSold = 0`, empty asset collection
and empty ledger, and returns its fresh id (the id generator's output). -/
theorem create_sme_spec :
    ∀ st n t p,
      (isInvalidArgument (create_sme st n t p) = true ↔
        (n.trim.length = 0 ∨ t ≤ 0 ∨ p ≤ 0)) ∧
      (¬ (n.trim.length = 0 ∨ t ≤ 0 ∨ p ≤ 0) →
        create_sme st n t p =
          .ok (st.nextId, persistNew st st.nextId (freshSME st.nextId n t p))) := by
  intro st n t p
  constructor
  · by_cases ht : t ≤ 0
    · have he : create_sme st n t p =
          .error (.invalidArgument "Total shares must be greater than zero") := by
        unfold create_sme validatePositiveNumber
        rw [if_pos ht]
        rfl
      rw [he]
      simp [isInvalidArgument, ht]
    · by_cases hp : p ≤ 0
      · have he : create_sme st n t p =
            .error (.invalidArgument "Price per share must be greater than zero") := by
          unfold create_sme validatePositiveNumber
          rw [if_neg ht, if_pos hp]
          rfl
        rw [he]
        simp [isInvalidArgument, hp]
      · by_cases hn : n.trim.length = 0
        · have he : create_sme st n t p =
              .error (.invalidArgument "SME name cannot be empty") := by
            unfold create_sme validatePositiveNumber
            rw [if_neg ht, if_neg hp, if_pos hn]
          rw [he]
          simp [isInvalidArgument, hn]
        · rw [create_sme_ok st hn (not_le.mp ht) (not_le.mp hp)]
          simp [isInvalidArgument, ht, hp, hn]
  · intro hno
    push_neg at hno
    exact create_sme_ok st hno.1 hno.2.1 hno.2.2

/-- Witness for C7: `create_sme("Cafe", 100, 10)` succeeds on `stDemo` and
returns the fresh id 4, while an empty name or `totalShares = 0` each yield
`InvalidArgument`. -/
theorem create_sme_spec_witness :
    ¬ (("Cafe".trim.length = 0) ∨ ((100 : ℚ) ≤ 0) ∨ ((10 : ℚ) ≤ 0)) ∧
    create_sme stDemo "Cafe" 100 10 =
      .ok (stDemo.nextId,
        persistNew stDemo stDemo.nextId (freshSME stDemo.nextId "Cafe" 100 10)) ∧
    isInvalidArgument (create_sme stDemo "" 100 10) = true ∧
    isInvalidArgument (create_sme stDemo "Cafe" 0 10) = true :=
  ⟨by with_unfolding_all decide,
   (create_sme_spec stDemo "Cafe" 100 10).2 (by with_unfolding_all decide),
   (create_sme_spec stDemo "" 100 10).1.mpr (by with_unfolding_all decide),
   (create_sme_spec stDemo "Cafe" 0 10).1.mpr (by with_unfolding_all decide)⟩

/-- Claim C8: the lookups treat absence as a value, never as an error:
`get_sme` and `get_asset` return `none` when the enterprise or asset is
missing, and the two holding queries return 0 when the enterprise, the
asset or the investor is unknown.  All four are embedded as pure functions
of the storage — the source performs no write on any of these paths. -/
theorem lookups_total :
    ∀ st smeId assetId inv,
      (Table.get st.smes smeId = none →
        get_sme st smeId = none ∧ get_asset st smeId assetId = none ∧
        get_investor_sme_holdings st smeId inv = 0 ∧
        get_investor_asset_holdings st smeId assetId inv = 0) ∧
      (∀ sme, Table.get st.smes smeId = some sme →
        (Table.get sme.assets assetId = none →
          get_asset st smeId assetId = none ∧
          get_investor_asset_holdings st smeId assetId inv = 0) ∧
        (Table.get sme.investors inv = none →
          get_investor_sme_holdings st smeId inv = 0) ∧
        (∀ a, Table.get sme.assets assetId = some a →
          Table.get a.investors inv = none →
          get_investor_asset_holdings st smeId assetId inv = 0)) := by
  intro st smeId assetId inv
  constructor
  · intro hget
    refine ⟨hget, ?_, ?_, ?_⟩
    · simp only [get_asset, hget]
    · simp only [get_investor_sme_holdings, hget]
    · simp only [get_investor_asset_holdings, hget]
  · intro sme hget
    refine ⟨?_, ?_, ?_⟩
    · intro hga
      constructor
      · simp only [get_asset, hget, hga]
      · simp only [get_investor_asset_holdings, hget, hga]
    · intro hinv
      simp only [get_investor_sme_holdings, hget, hinv, Option.getD_none]
    · intro a hga hainv
      simp only [get_investor_asset_holdings, hget, hga, hainv,
        Option.getD_none]

/-- Witness for C8: id 7 names no enterprise in `stDemo`, and all four
lookups return an absent value or 0 rather than an error. -/
theorem lookups_total_witness :
    Table.get stDemo.smes 7 = none ∧
    (get_sme stDemo 7 = none ∧ get_asset stDemo 7 9 = none ∧
      get_investor_sme_holdings stDemo 7 "inv1" = 0 ∧
      get_investor_asset_holdings stDemo 7 9 "inv1" = 0) :=
  ⟨by with_unfolding_all rfl,
   (lookups_total stDemo 7 9 "inv1").1 (by with_unfolding_all rfl)⟩

/-- Claim C9: for an existing enterprise whose counters satisfy the data
model (`sharesSold ≤ totalShares`) and any amount with
`0 < amount < pricePerShare`, `invest_in_sme` succeeds without error,
allocates 0 shares (so `sharesSold` is written back unchanged —
`creditSME _ _ 0` adds 0), and the investor's queryable holding is
unchanged (the ledger entry is rewritten with its previous value, default
0); likewise for `invest_in_asset` with `0 < amount < valuePerShare`. -/
theorem small_amount_zero_shares :
    (∀ st smeId inv amount sme, Table.get st.smes smeId = some sme →
      sme.sharesSold ≤ sme.totalShares →
      0 < amount → amount < sme.pricePerShare →
      invest_in_sme st smeId inv amount =
        .ok (setSME st smeId (creditSME sme inv 0)) ∧
      (creditSME sme inv 0).sharesSold = sme.sharesSold ∧
      get_investor_sme_holdings (setSME st smeId (creditSME sme inv 0))
          smeId inv =
        get_investor_sme_holdings st smeId inv) ∧
    (∀ st smeId assetId inv amount sme a,
      Table.get st.smes smeId = some sme →
      Table.get sme.assets assetId = some a →
      a.sharesSold ≤ a.totalShares →
      0 < amount → amount < a.valuePerShare →
      invest_in_asset st smeId assetId inv amount =
        .ok (setSME st smeId (setAsset sme assetId (creditAsset a inv 0))) ∧
      (creditAsset a inv 0).sharesSold = a.sharesSold ∧
      get_investor_asset_holdings
          (setSME st smeId (setAsset sme assetId (creditAsset a inv 0)))
          smeId assetId inv =
        get_investor_asset_holdings st smeId assetId inv) := by
  constructor
  · intro st smeId inv amount sme hget hse h0 hlt
    have hz : ((⌊amount / sme.pricePerShare⌋ : ℤ) : ℚ) = 0 := by
      rw [floor_div_eq_zero_of_lt h0 hlt]
      exact Int.cast_zero
    have hcap : ¬ sme.sharesSold +
        ((⌊amount / sme.pricePerShare⌋ : ℤ) : ℚ) > sme.totalShares := by
      rw [hz, add_zero]
      exact not_lt.mpr hse
    refine ⟨?_, ?_, ?_⟩
    · rw [invest_in_sme_ok st smeId inv amount hget hcap, hz]
    · simp [creditSME]
    · simp only [get_investor_sme_holdings, setSME, Table.get_insert_self,
        creditSME, hget]
      simp
  · intro st smeId assetId inv amount sme a hget hga hse h0 hlt
    have hz : ((⌊amount / a.valuePerShare⌋ : ℤ) : ℚ) = 0 := by
      rw [floor_div_eq_zero_of_lt h0 hlt]
      exact Int.cast_zero
    have hcap : ¬ a.sharesSold +
        ((⌊amount / a.valuePerShare⌋ : ℤ) : ℚ) > a.totalShares := by
      rw [hz, add_zero]
      exact not_lt.mpr hse
    refine ⟨?_, ?_, ?_⟩
    · rw [invest_in_asset_ok st smeId assetId inv amount hget hga hcap, hz]
    · simp [creditAsset]
    · simp only [get_investor_asset_holdings, setSME, Table.get_insert_self,
        setAsset, creditAsset, hget, hga]
      simp

/-- Witness for C9 on `stDemo`: amount 7 against price 10 (Cafe) and amount
7 against value-per-share 50 (Oven under Shop) both succeed allocating 0
shares, leaving counters and queryable holdings unchanged. -/
theorem small_amount_zero_shares_witness :
    ((0 : ℚ) < 7 ∧ (7 : ℚ) < smeCafe.pricePerShare ∧
      invest_in_sme stDemo 0 "inv1" 7 =
        .ok (setSME stDemo 0 (creditSME smeCafe "inv1" 0))) ∧
    ((7 : ℚ) < ovenAsset.valuePerShare ∧
      invest_in_asset stDemo 3 1 "inv1" 7 =
        .ok (setSME stDemo 3 (setAsset smeShop 1 (creditAsset ovenAsset "inv1" 0)))) :=
  ⟨⟨by with_unfolding_all decide, by with_unfolding_all decide,
    (small_amount_zero_shares.1 stDemo 0 "inv1" 7 smeCafe
      (by with_unfolding_all rfl) (by with_unfolding_all decide)
      (by with_unfolding_all decide) (by with_unfolding_all decide)).1⟩,
   ⟨by with_unfolding_all decide,
    (small_amount_zero_shares.2 stDemo 3 1 "inv1" 7 smeShop ovenAsset
      (by with_unfolding_all rfl) (by with_unfolding_all rfl)
      (by with_unfolding_all decide) (by with_unfolding_all decide)
      (by with_unfolding_all decide)).1⟩⟩

/-- Claim C10, the frame conditions of the two investment operations: a
successful `invest_in_sme` changes no enterprise other than the target and
no ledger entry of any other investor (its assets table is also untouched);
a successful `invest_in_asset` additionally leaves the enclosing
enterprise's own `sharesSold` and enterprise-level ledger unchanged, every
other asset of that enterprise unchanged, and every other investor's entry
in the asset's ledger unchanged.  (A failing call writes nothing at all.) -/
theorem invest_frame_conditions :
    (∀ st smeId inv amount st',
      invest_in_sme st smeId inv amount = .ok st' →
      (∀ id, id ≠ smeId → Table.get st'.smes id = Table.get st.smes id) ∧
      (∀ sme sme', Table.get st.smes smeId = some sme →
        Table.get st'.smes smeId = some sme' →
        sme'.assets = sme.assets ∧
        ∀ inv2, inv2 ≠ inv →
          Table.get sme'.investors inv2 = Table.get sme.investors inv2)) ∧
    (∀ st smeId assetId inv amount st',
      invest_in_asset st smeId assetId inv amount = .ok st' →
      (∀ id, id ≠ smeId → Table.get st'.smes id = Table.get st.smes id) ∧
      (∀ sme sme', Table.get st.smes smeId = some sme →
        Table.get st'.smes smeId = some sme' →
        sme'.sharesSold = sme.sharesSold ∧
        sme'.investors = sme.investors ∧
        (∀ aid, aid ≠ assetId →
          Table.get sme'.assets aid = Table.get sme.assets aid) ∧
        ∀ a a', Table.get sme.assets assetId = some a →
          Table.get sme'.assets assetId = some a' →
          ∀ inv2, inv2 ≠ inv →
            Table.get a'.investors inv2 = Table.get a.investors inv2)) := by
  constructor
  · intro st smeId inv amount st' h
    obtain ⟨sme0, hget0, _, rfl⟩ := invest_in_sme_ok_inv h
    constructor
    · intro id hid
      simp only [setSME]
      exact Table.get_insert_ne st.smes smeId id _ hid
    · intro sme sme' hget hget'
      obtain rfl : sme0 = sme := Option.some.inj (hget0.symm.trans hget)
      simp only [setSME] at hget'
      rw [Table.get_insert_self] at hget'
      obtain rfl := Option.some.inj hget'
      refine ⟨rfl, ?_⟩
      intro inv2 hinv2
      simp only [creditSME]
      exact Table.get_insert_ne _ inv inv2 _ hinv2
  · intro st smeId assetId inv amount st' h
    obtain ⟨sme0, a0, hget0, hga0, _, rfl⟩ := invest_in_asset_ok_inv h
    constructor
    · intro id hid
      simp only [setSME]
      exact Table.get_insert_ne st.smes smeId id _ hid
    · intro sme sme' hget hget'
      obtain rfl : sme0 = sme := Option.some.inj (hget0.symm.trans hget)
      simp only [setSME] at hget'
      rw [Table.get_insert_self] at hget'
      obtain rfl := Option.some.inj hget'
      refine ⟨rfl, rfl, ?_, ?_⟩
      · intro aid haid
        simp only [setAsset]
        exact Table.get_insert_ne _ assetId aid _ haid
      · intro a a' hga hga'
        obtain rfl : a0 = a := Option.some.inj (hga0.symm.trans hga)
        simp only [setAsset] at hga'
        rw [Table.get_insert_self] at hga'
        obtain rfl := Option.some.inj hga'
        intro inv2 hinv2
        simp only [creditAsset]
        exact Table.get_insert_ne _ inv inv2 _ hinv2

/-- Witness for C10: investing 50 as "alice" in the Cafe enterprise of
`stDemo` leaves the Bakery and Shop enterprises, the Cafe assets table, and
every other investor's ledger entry unchanged. -/
theorem invest_frame_conditions_witness :
    (∀ id, id ≠ 0 →
      Table.get (setSME stDemo 0 (creditSME smeCafe "alice" 5)).smes id =
        Table.get stDemo.smes id) ∧
    (∀ sme sme', Table.get stDemo.smes 0 = some sme →
      Table.get (setSME stDemo 0 (creditSME smeCafe "alice" 5)).smes 0 =
        some sme' →
      sme'.assets = sme.assets ∧
      ∀ inv2, inv2 ≠ "alice" →
        Table.get sme'.investors inv2 = Table.get sme.investors inv2) :=
  invest_frame_conditions.1 stDemo 0 "alice" 50 _ (by with_unfolding_all rfl)
